import Mathlib

/-!
# AsyncAlbumServer: the asynchronous review pipeline

A shallow embedding of `handleReview` (src/main.go) and of the consumer loop
(src/review_consumer.go), together with the parts of Go's `encoding/json` and
`unicode/utf8` that the two programs call (`json.Marshal` of a `Review`,
`json.Unmarshal` into a `Review`).

Go strings and byte slices are sequences of bytes; they are embedded as lists of
natural numbers.  Every function below treats a number above 255 the way it treats
a byte that cannot start or continue a UTF-8 sequence, so a statement proved for all
lists holds for all byte strings.
-/

namespace AsyncAlbum

/-- A Go `string` / `[]byte`: a sequence of bytes. -/
abbrev GoString := List Nat

/-! ## unicode/utf8 -/

/-- The rune `utf8.RuneError` (U+FFFD). -/
def RuneError : Nat := 0xFFFD

/-- The largest valid code point, `utf8.MaxRune`. -/
def MaxRune : Nat := 0x10FFFF

/-- A continuation byte, `0x80 ≤ b ≤ 0xBF`. -/
def isCont (b : Nat) : Bool := decide (0x80 ≤ b) && decide (b ≤ 0xBF)

/-- Lower bound that `utf8.acceptRanges` puts on the second byte after lead byte `b0`. -/
def acceptLo (b0 : Nat) : Nat :=
  if b0 = 0xE0 then 0xA0 else if b0 = 0xF0 then 0x90 else 0x80

/-- Upper bound that `utf8.acceptRanges` puts on the second byte after lead byte `b0`. -/
def acceptHi (b0 : Nat) : Nat :=
  if b0 = 0xED then 0x9F else if b0 = 0xF4 then 0x8F else 0xBF

/-- The function `utf8.DecodeRune` / `utf8.DecodeRuneInString`: the first rune of `p` and
its width in bytes; `(RuneError, 1)` for an invalid or truncated encoding,
`(RuneError, 0)` for the empty input. -/
def decodeRune : GoString → Nat × Nat
  | [] => (RuneError, 0)
  | b0 :: rest =>
    if b0 < 0x80 then (b0, 1)
    else if 0xC2 ≤ b0 ∧ b0 ≤ 0xDF then
      match rest with
      | b1 :: _ =>
        if acceptLo b0 ≤ b1 ∧ b1 ≤ acceptHi b0 then ((b0 % 32) * 64 + b1 % 64, 2)
        else (RuneError, 1)
      | _ => (RuneError, 1)
    else if 0xE0 ≤ b0 ∧ b0 ≤ 0xEF then
      match rest with
      | b1 :: b2 :: _ =>
        if acceptLo b0 ≤ b1 ∧ b1 ≤ acceptHi b0 then
          if isCont b2 then ((b0 % 16) * 4096 + (b1 % 64) * 64 + b2 % 64, 3)
          else (RuneError, 1)
        else (RuneError, 1)
      | _ => (RuneError, 1)
    else if 0xF0 ≤ b0 ∧ b0 ≤ 0xF4 then
      match rest with
      | b1 :: b2 :: b3 :: _ =>
        if acceptLo b0 ≤ b1 ∧ b1 ≤ acceptHi b0 then
          if isCont b2 then
            if isCont b3 then
              ((b0 % 8) * 262144 + (b1 % 64) * 4096 + (b2 % 64) * 64 + b3 % 64, 4)
            else (RuneError, 1)
          else (RuneError, 1)
        else (RuneError, 1)
      | _ => (RuneError, 1)
    else (RuneError, 1)

/-- The function `utf8.EncodeRune` (as `utf8.AppendRune`): the UTF-8 encoding of `r`;
surrogates and values above `MaxRune` are encoded as `RuneError`. -/
def encodeRune (r : Nat) : GoString :=
  if r ≤ 0x7F then [r]
  else if r ≤ 0x7FF then [0xC0 + r / 64, 0x80 + r % 64]
  else if r > MaxRune ∨ (0xD800 ≤ r ∧ r ≤ 0xDFFF) then [0xEF, 0xBF, 0xBD]
  else if r ≤ 0xFFFF then [0xE0 + r / 4096, 0x80 + r / 64 % 64, 0x80 + r % 64]
  else [0xF0 + r / 262144, 0x80 + r / 4096 % 64, 0x80 + r / 64 % 64, 0x80 + r % 64]

/-- A Go string literal: the UTF-8 bytes of the characters of `s`. -/
def lit (s : String) : GoString := s.toList.flatMap fun c => encodeRune c.toNat

/-- The function `utf8.ValidString`, with `skip` bytes of an already accepted rune still
to pass over. -/
def validFrom : Nat → GoString → Bool
  | _, [] => true
  | k + 1, _ :: rest => validFrom k rest
  | 0, b :: rest =>
    let d := decodeRune (b :: rest)
    if d.1 = RuneError ∧ d.2 = 1 then false else validFrom (d.2 - 1) rest

/-- The function `utf8.ValidString`: `s` consists entirely of valid UTF-8 encodings. -/
def validString (s : GoString) : Bool := validFrom 0 s

/-- The string `s` with every byte that does not start a valid UTF-8 encoding replaced
by the encoding of U+FFFD; `skip` bytes of an already copied rune are passed over. -/
def coerceFrom : Nat → GoString → GoString
  | _, [] => []
  | k + 1, _ :: rest => coerceFrom k rest
  | 0, b :: rest =>
    let d := decodeRune (b :: rest)
    if d.1 = RuneError ∧ d.2 = 1 then [0xEF, 0xBF, 0xBD] ++ coerceFrom 0 rest
    else (b :: rest).take d.2 ++ coerceFrom (d.2 - 1) rest

/-- What `encoding/json` documents as "coerced to valid UTF-8": each invalid byte is
replaced by the Unicode replacement rune. -/
def toValidUTF8 (s : GoString) : GoString := coerceFrom 0 s

/-- The cases of `decodeRune`: the input and the result. -/
inductive DecodeCase : GoString → Nat × Nat → Prop where
  | empty : DecodeCase [] (RuneError, 0)
  | ascii (b : Nat) (rest : GoString) (h : b < 128) : DecodeCase (b :: rest) (b, 1)
  | invalid (b : Nat) (rest : GoString) (h : 128 ≤ b) : DecodeCase (b :: rest) (RuneError, 1)
  | two (b0 b1 : Nat) (rest : GoString) (h0 : 194 ≤ b0 ∧ b0 ≤ 223) (h1 : 128 ≤ b1 ∧ b1 ≤ 191) :
      DecodeCase (b0 :: b1 :: rest) (b0 % 32 * 64 + b1 % 64, 2)
  | three (b0 b1 b2 : Nat) (rest : GoString) (h0 : 224 ≤ b0 ∧ b0 ≤ 239)
      (h1 : 128 ≤ b1 ∧ b1 ≤ 191 ∧ (b0 = 224 → 160 ≤ b1) ∧ (b0 = 237 → b1 ≤ 159))
      (h2 : 128 ≤ b2 ∧ b2 ≤ 191) :
      DecodeCase (b0 :: b1 :: b2 :: rest) (b0 % 16 * 4096 + b1 % 64 * 64 + b2 % 64, 3)
  | four (b0 b1 b2 b3 : Nat) (rest : GoString) (h0 : 240 ≤ b0 ∧ b0 ≤ 244)
      (h1 : 128 ≤ b1 ∧ b1 ≤ 191 ∧ (b0 = 240 → 144 ≤ b1) ∧ (b0 = 244 → b1 ≤ 143))
      (h2 : 128 ≤ b2 ∧ b2 ≤ 191) (h3 : 128 ≤ b3 ∧ b3 ≤ 191) :
      DecodeCase (b0 :: b1 :: b2 :: b3 :: rest)
        (b0 % 8 * 262144 + b1 % 64 * 4096 + b2 % 64 * 64 + b3 % 64, 4)

/-- The part of `toValidUTF8 s` that stands for the first rune of `s`. -/
def coerceHead (s : GoString) : GoString :=
  if (decodeRune s).1 = RuneError ∧ (decodeRune s).2 = 1 then [0xEF, 0xBF, 0xBD]
  else s.take (decodeRune s).2

/-! ## encoding/json: encoding -/

/-- The digit string `hex` of encode.go. -/
def hexDigit (n : Nat) : Nat := if n < 10 then 48 + n else 87 + n

/-- The table `htmlSafeSet` of tables.go: the ASCII bytes that `json.Marshal` copies
unescaped. -/
def htmlSafeSet (b : Nat) : Bool :=
  decide (0x20 ≤ b) && decide (b < 0x80) && !(b = 34 || b = 38 || b = 60 || b = 62 || b = 92)

/-- One iteration of the loop of `appendString` (encode.go, `escapeHTML = true`) at a
non-empty remainder `src`: the bytes appended and the number of source bytes consumed. -/
def appendStringStep (src : GoString) : GoString × Nat :=
  match src with
  | [] => ([], 0)
  | b :: _ =>
    if b < 0x80 then
      if htmlSafeSet b then ([b], 1)
      else if b = 92 ∨ b = 34 then ([92, b], 1)
      else if b = 8 then ([92, 98], 1)
      else if b = 12 then ([92, 102], 1)
      else if b = 10 then ([92, 110], 1)
      else if b = 13 then ([92, 114], 1)
      else if b = 9 then ([92, 116], 1)
      else ([92, 117, 48, 48, hexDigit (b / 16), hexDigit (b % 16)], 1)
    else
      let d := decodeRune src
      if d.1 = RuneError ∧ d.2 = 1 then ([92, 117, 102, 102, 102, 100], 1)
      else if d.1 = 0x2028 ∨ d.1 = 0x2029 then
        ([92, 117, 50, 48, 50, hexDigit (d.1 % 16)], d.2)
      else (src.take d.2, d.2)

/-- The loop of `appendString` over the remainder of the source, `skip` bytes of the
rune handled last still to pass over. -/
def appendStringFrom : Nat → GoString → GoString
  | _, [] => []
  | k + 1, _ :: rest => appendStringFrom k rest
  | 0, b :: rest =>
    let r := appendStringStep (b :: rest)
    r.1 ++ appendStringFrom (r.2 - 1) rest

/-- The function `appendString` of encode.go: `src` as a quoted JSON string. -/
def appendString (src : GoString) : GoString :=
  [34] ++ appendStringFrom 0 src ++ [34]

/-! ## encoding/json: decoding -/

/-- The value of a hexadecimal digit, as in `getu4` of decode.go. -/
def hexVal (c : Nat) : Option Nat :=
  if 48 ≤ c ∧ c ≤ 57 then some (c - 48)
  else if 97 ≤ c ∧ c ≤ 102 then some (c - 87)
  else if 65 ≤ c ∧ c ≤ 70 then some (c - 55)
  else none

/-- The function `getu4` of decode.go: the number written by a leading `\uXXXX`, and
`none` where the Go function returns -1. -/
def getu4 : GoString → Option Nat
  | bs :: u :: a :: b :: c :: d :: _ =>
    if bs = 92 ∧ u = 117 then
      match hexVal a, hexVal b, hexVal c, hexVal d with
      | some x, some y, some z, some w => some (((x * 16 + y) * 16 + z) * 16 + w)
      | _, _, _, _ => none
    else none
  | _ => none

/-- One iteration of the loop of `unquoteBytes` (decode.go) at a position inside a string
literal that the scanner (`stateInString`, `stateInStringEsc`, `stateInStringEscU...`)
accepts: the bytes written and the number of input bytes consumed; `none` where the
scanner reports a syntax error.  The position is not the closing quote. -/
def unquoteStep (s : GoString) : Option (GoString × Nat) :=
  match s with
  | [] => none
  | c :: rest =>
    if c = 92 then
      match rest with
      | [] => none
      | e :: _ =>
        if e = 34 ∨ e = 92 ∨ e = 47 then some ([e], 2)
        else if e = 98 then some ([8], 2)
        else if e = 102 then some ([12], 2)
        else if e = 110 then some ([10], 2)
        else if e = 114 then some ([13], 2)
        else if e = 116 then some ([9], 2)
        else if e = 117 then
          match getu4 s with
          | none => none
          | some rr =>
            if 0xD800 ≤ rr ∧ rr < 0xE000 then
              match getu4 (s.drop 6) with
              | some rr1 =>
                if rr < 0xDC00 ∧ 0xDC00 ≤ rr1 ∧ rr1 < 0xE000 then
                  some (encodeRune ((rr - 0xD800) * 1024 + (rr1 - 0xDC00) + 0x10000), 12)
                else some (encodeRune RuneError, 6)
              | none => some (encodeRune RuneError, 6)
            else some (encodeRune rr, 6)
        else none
    else if c = 34 ∨ c < 0x20 then none
    else if c < 0x80 then some ([c], 1)
    else
      let d := decodeRune s
      some (encodeRune d.1, d.2)

/-- Scanning and unquoting a string literal whose opening quote has been read: the
decoded contents and the number of bytes up to and including the closing quote;
`skip` bytes of the item handled last are still to pass over. -/
def scanString : Nat → GoString → Option (GoString × Nat)
  | _, [] => none
  | k + 1, _ :: rest =>
    match scanString k rest with
    | none => none
    | some r => some (r.1, r.2 + 1)
  | 0, b :: rest =>
    if b = 34 then some ([], 1)
    else
      match unquoteStep (b :: rest) with
      | none => none
      | some st =>
        match scanString (st.2 - 1) rest with
        | none => none
        | some r => some (st.1 ++ r.1, r.2 + 1)

/-- The number of leading decimal digits of `s`. -/
def digitRun : GoString → Nat
  | [] => 0
  | c :: rest => if 48 ≤ c ∧ c ≤ 57 then digitRun rest + 1 else 0

/-- The optional fraction of a number (`stateDot`, `stateDot0`): its length, 0 when there
is none, `none` when a `.` is not followed by a digit. -/
def scanFraction (s : GoString) : Option Nat :=
  match s with
  | c :: rest =>
    if c = 46 then (if digitRun rest = 0 then none else some (1 + digitRun rest))
    else some 0
  | [] => some 0

/-- The optional exponent of a number (`stateE`, `stateESign`, `stateE0`): its length, 0
when there is none, `none` when it has no digits. -/
def scanExponent (s : GoString) : Option Nat :=
  match s with
  | c :: rest =>
    if c = 101 ∨ c = 69 then
      match rest with
      | sg :: rest2 =>
        if sg = 43 ∨ sg = 45 then
          (if digitRun rest2 = 0 then none else some (2 + digitRun rest2))
        else (if digitRun rest = 0 then none else some (1 + digitRun rest))
      | [] => none
    else some 0
  | [] => some 0

/-- The length of the number literal at the start of `s` (`stateNeg`, `state0`, `state1`
and the states above), `none` when there is none. -/
def scanNumber (s : GoString) : Option Nat :=
  let neg := if s.head? = some 45 then 1 else 0
  let s1 := s.drop neg
  match s1 with
  | [] => none
  | c :: _ =>
    let int := if c = 48 then 1 else if 49 ≤ c ∧ c ≤ 57 then digitRun s1 else 0
    if int = 0 then none
    else
      match scanFraction (s1.drop int) with
      | none => none
      | some fr =>
        match scanExponent (s1.drop (int + fr)) with
        | none => none
        | some ex => some (neg + int + fr + ex)

/-- The tokens of a JSON text. -/
inductive Token where
  | lbrace | rbrace | lbrack | rbrack | colon | comma
  | str (s : GoString)
  | num | tru | fls | nul
  deriving DecidableEq

/-- The token that starts at the head of `s`, if any, and its length in bytes; white
space (`isSpace` of scanner.go) yields no token. -/
def lexStep (s : GoString) : Option (Option Token × Nat) :=
  match s with
  | [] => none
  | c :: rest =>
    if c = 32 ∨ c = 9 ∨ c = 13 ∨ c = 10 then some (none, 1)
    else if c = 123 then some (some .lbrace, 1)
    else if c = 125 then some (some .rbrace, 1)
    else if c = 91 then some (some .lbrack, 1)
    else if c = 93 then some (some .rbrack, 1)
    else if c = 58 then some (some .colon, 1)
    else if c = 44 then some (some .comma, 1)
    else if c = 34 then
      match scanString 0 rest with
      | none => none
      | some r => some (some (.str r.1), r.2 + 1)
    else if c = 116 then (if rest.take 3 = [114, 117, 101] then some (some .tru, 4) else none)
    else if c = 102 then
      (if rest.take 4 = [97, 108, 115, 101] then some (some .fls, 5) else none)
    else if c = 110 then (if rest.take 3 = [117, 108, 108] then some (some .nul, 4) else none)
    else if c = 45 ∨ (48 ≤ c ∧ c ≤ 57) then
      match scanNumber s with
      | none => none
      | some n => some (some .num, n)
    else none

/-- The tokens of `s`, `skip` bytes of the token read last still to pass over. -/
def lexFrom : Nat → GoString → Option (List Token)
  | _, [] => some []
  | k + 1, _ :: rest => lexFrom k rest
  | 0, b :: rest =>
    match lexStep (b :: rest) with
    | none => none
    | some st =>
      match lexFrom (st.2 - 1) rest with
      | none => none
      | some ts => some (st.1.toList ++ ts)

/-- A JSON value. -/
inductive JValue where
  | null
  | bool (b : Bool)
  | number
  | string (s : GoString)
  | array (items : List JValue)
  | object (members : List (GoString × JValue))

/-- An entry of the scanner's `parseState` stack, with what has been read of the
composite value it stands for. -/
inductive Frame where
  | array (items : List JValue)
  | object (members : List (GoString × JValue)) (key : Option GoString)

/-- The scanner's `step` states, at the granularity of tokens. -/
inductive Phase where
  | beginValue | beginValueOrEmpty | beginStringOrEmpty | beginString
  | objectKey | endValue
  | endTop (v : JValue)

/-- The constant `maxNestingDepth` of scanner.go. -/
def maxNestingDepth : Nat := 10000

/-- A value is complete: it is the top-level value or joins the enclosing composite. -/
def endOfValue (v : JValue) : List Frame → Option (List Frame × Phase)
  | [] => some ([], .endTop v)
  | .array items :: st => some (.array (v :: items) :: st, .endValue)
  | .object ms (some k) :: st => some (.object ((k, v) :: ms) none :: st, .endValue)
  | .object _ none :: _ => none

/-- The function `pushParseState` of scanner.go. -/
def pushParseState (f : Frame) (stack : List Frame) (next : Phase) :
    Option (List Frame × Phase) :=
  if stack.length + 1 ≤ maxNestingDepth then some (f :: stack, next) else none

/-- One token through the scanner. -/
def parseStep (stack : List Frame) (phase : Phase) (t : Token) :
    Option (List Frame × Phase) :=
  match phase, t, stack with
  | .beginValue, .lbrace, _ => pushParseState (.object [] none) stack .beginStringOrEmpty
  | .beginValueOrEmpty, .lbrace, _ =>
    pushParseState (.object [] none) stack .beginStringOrEmpty
  | .beginValue, .lbrack, _ => pushParseState (.array []) stack .beginValueOrEmpty
  | .beginValueOrEmpty, .lbrack, _ => pushParseState (.array []) stack .beginValueOrEmpty
  | .beginValue, .str s, _ => endOfValue (.string s) stack
  | .beginValueOrEmpty, .str s, _ => endOfValue (.string s) stack
  | .beginValue, .num, _ => endOfValue .number stack
  | .beginValueOrEmpty, .num, _ => endOfValue .number stack
  | .beginValue, .tru, _ => endOfValue (.bool true) stack
  | .beginValueOrEmpty, .tru, _ => endOfValue (.bool true) stack
  | .beginValue, .fls, _ => endOfValue (.bool false) stack
  | .beginValueOrEmpty, .fls, _ => endOfValue (.bool false) stack
  | .beginValue, .nul, _ => endOfValue .null stack
  | .beginValueOrEmpty, .nul, _ => endOfValue .null stack
  | .beginValueOrEmpty, .rbrack, .array items :: st => endOfValue (.array items.reverse) st
  | .beginStringOrEmpty, .str k, .object ms none :: st =>
    some (.object ms (some k) :: st, .objectKey)
  | .beginString, .str k, .object ms none :: st =>
    some (.object ms (some k) :: st, .objectKey)
  | .beginStringOrEmpty, .rbrace, .object ms none :: st =>
    endOfValue (.object ms.reverse) st
  | .objectKey, .colon, _ => some (stack, .beginValue)
  | .endValue, .comma, .array _ :: _ => some (stack, .beginValue)
  | .endValue, .rbrack, .array items :: st => endOfValue (.array items.reverse) st
  | .endValue, .comma, .object _ none :: _ => some (stack, .beginString)
  | .endValue, .rbrace, .object ms none :: st => endOfValue (.object ms.reverse) st
  | _, _, _ => none

/-- The scanner over a token sequence: the value read, `none` on a syntax error or at
an unexpected end of input. -/
def parseTokens (stack : List Frame) (phase : Phase) : List Token → Option JValue
  | [] =>
    match phase with
    | .endTop v => some v
    | _ => none
  | t :: ts =>
    match parseStep stack phase t with
    | none => none
    | some st => parseTokens st.1 st.2 ts

/-- The function `checkValid` followed by the reading of the one top-level value: the
value that the JSON text `data` denotes, `none` where `checkValid` reports a
`SyntaxError`. -/
def parseJSON (data : GoString) : Option JValue :=
  match lexFrom 0 data with
  | none => none
  | some ts => parseTokens [] .beginValue ts

/-! ## The message schema (src/main.go 31-34, src/review_consumer.go 13-16) -/

/-- The struct `Review`, declared identically by the producer and by the consumer. -/
structure Review where
  AlbumID : GoString
  Action : GoString
  deriving DecidableEq

/-- The call `json.Marshal(review)` for a `Review`: the fields in declaration order under
their `json` tags.  It returns no error for this type. -/
def marshal (review : Review) : GoString :=
  lit "\x7b\"albumID\":" ++ appendString review.AlbumID
    ++ lit ",\"action\":" ++ appendString review.Action ++ lit "\x7d"

/-- The errors of `json.Unmarshal`: `*SyntaxError` and `*UnmarshalTypeError`. -/
inductive UnmarshalError where
  | SyntaxError
  | UnmarshalTypeError
  deriving DecidableEq

/-- The fields of `Review`. -/
inductive Field where
  | AlbumID
  | Action
  deriving DecidableEq

/-- ASCII lower case of one byte. -/
def foldByte (c : Nat) : Nat := if 65 ≤ c ∧ c ≤ 90 then c + 32 else c

/-- The field an object key selects (`d.object` of decode.go): the field whose `json`
name equals the key, else the field whose name equals it up to case. -/
def findField (key : GoString) : Option Field :=
  if key = lit "albumID" then some .AlbumID
  else if key = lit "action" then some .Action
  else if key.map foldByte = lit "albumid" then some .AlbumID
  else if key.map foldByte = lit "action" then some .Action
  else none

/-- Storing one member's value into the field it selects (`d.value` on a field of kind
string): a string is stored, `null` leaves the field as it is, every other value
saves an `UnmarshalTypeError`; the flag reports a saved error. -/
def storeField (f : Field) (v : JValue) (review : Review) : Review × Bool :=
  match v with
  | .string s =>
    match f with
    | .AlbumID => ({ review with AlbumID := s }, false)
    | .Action => ({ review with Action := s }, false)
  | .null => (review, false)
  | _ => (review, true)

/-- The loop of `d.object` over the members of the object, into a struct `Review`;
members with an unknown key are skipped, a saved error does not stop the loop. -/
def storeObject : List (GoString × JValue) → Review → Review × Bool
  | [], review => (review, false)
  | (k, v) :: ms, review =>
    match findField k with
    | none => storeObject ms review
    | some f =>
      let r := storeField f v review
      let r2 := storeObject ms r.1
      (r2.1, r.2 || r2.2)

/-- The call `json.Unmarshal(data, &review)`: the contents of `review` afterwards and the
error returned. -/
def unmarshal (data : GoString) (review : Review) : Review × Option UnmarshalError :=
  match parseJSON data with
  | none => (review, some .SyntaxError)
  | some (.object ms) =>
    let r := storeObject ms review
    (r.1, if r.2 then some .UnmarshalTypeError else none)
  | some .null => (review, none)
  | some _ => (review, some .UnmarshalTypeError)

/-! ## The collaborators: store and broker -/

/-- The type `amqp.Publishing`, with the fields the producer sets; a delivery carries the
same two fields. -/
structure Publishing where
  ContentType : GoString
  Body : GoString
  deriving DecidableEq

/-- The state outside the two programs: the `albumID` column of the rows of table
`albums`, the rows of table `reviews` in insertion order (the position of a row
stands for its auto-increment key), and the messages ready in queue `reviewQueue`,
head first. -/
structure World where
  albums : List GoString
  reviews : List Review
  reviewQueue : List Publishing
  deriving DecidableEq

/-- The store answers `SELECT EXISTS(SELECT 1 FROM albums WHERE albumID = ?)`: whether
table `albums` has a row with this albumID.  The comparison is equality of byte
strings; the collation of the column is left out. -/
def World.albumExists (w : World) (albumID : GoString) : Bool :=
  decide (albumID ∈ w.albums)

/-- The broker takes a published message: the default exchange routes it to the queue
named by the routing key. -/
def World.publish (w : World) (exchange key : GoString) (msg : Publishing) : World :=
  if exchange = lit "" ∧ key = lit "reviewQueue" then
    { w with reviewQueue := w.reviewQueue ++ [msg] }
  else w

/-- The store executes `INSERT INTO reviews (albumID, action) VALUES (?, ?)`; a failed
statement leaves the table as it was. -/
def World.insertReview (w : World) (err : Bool) (albumID action : GoString) : World :=
  if err then w else { w with reviews := w.reviews ++ [⟨albumID, action⟩] }

/-- The broker settles a negatively acknowledged delivery as the specification of the
queue has it: with `requeue` the message returns to the queue, to be delivered
again; without, it is discarded and not delivered again. -/
def World.nack (w : World) (d : Publishing) (requeue : Bool) : World :=
  if requeue then { w with reviewQueue := d :: w.reviewQueue } else w

/-- The broker settles an acknowledged delivery: the message, off the queue since its
delivery, is removed for good. -/
def World.ack (w : World) (_d : Publishing) : World := w

/-! ## The producer: `handleReview` (src/main.go 136-182) -/

namespace Producer

/-- What the collaborators answer during one call of `handleReview`. -/
structure Env where
  /-- The statement `db.QueryRow(...).Scan(&exists)` returns an error. -/
  queryErr : Bool
  /-- The call `amqp.Dial` returns an error. -/
  dialErr : Bool
  /-- The call `conn.Channel()` returns an error. -/
  channelErr : Bool
  /-- The call `ch.Publish` returns an error. -/
  publishErr : Bool
  deriving DecidableEq

/-- The calls `handleReview` makes on its collaborators, in order. -/
inductive Effect where
  | queryExists (albumID : GoString)
  | dial
  | openChannel
  | publish (exchange key : GoString) (mandatory immediate : Bool) (msg : Publishing)
  | respond (status : Nat) (msg : GoString)
  | closeChannel
  | closeConn
  deriving DecidableEq

/-- The HTTP status codes used. -/
def StatusCreated : Nat := 201

/-- The code of http.StatusBadRequest. -/
def StatusBadRequest : Nat := 400

/-- The code of http.StatusNotFound. -/
def StatusNotFound : Nat := 404

/-- The code of http.StatusInternalServerError. -/
def StatusInternalServerError : Nat := 500

/-- The function `handleReview`, on the path parameters `likeornot` and `albumID`: the
calls made and the world afterwards. -/
def handleReview (env : Env) (likeOrNot albumID : GoString) (w : World) :
    List Effect × World :=
  if likeOrNot ≠ lit "like" ∧ likeOrNot ≠ lit "dislike" then
    ([.respond StatusBadRequest (lit "Invalid review action")], w)
  else
    let exists_ : Bool := !env.queryErr && w.albumExists albumID
    if env.queryErr ∨ !exists_ then
      ([.queryExists albumID, .respond StatusNotFound (lit "Album not found")], w)
    else if env.dialErr then
      ([.queryExists albumID, .dial,
        .respond StatusInternalServerError (lit "Failed to connect to RabbitMQ")], w)
    else if env.channelErr then
      ([.queryExists albumID, .dial, .openChannel,
        .respond StatusInternalServerError (lit "Failed to open channel"), .closeConn], w)
    else
      let review : Review := { AlbumID := albumID, Action := likeOrNot }
      let data := marshal review
      let msg : Publishing := { ContentType := lit "application/json", Body := data }
      if env.publishErr then
        ([.queryExists albumID, .dial, .openChannel,
          .publish (lit "") (lit "reviewQueue") false false msg,
          .respond StatusInternalServerError (lit "Failed to publish to queue"),
          .closeChannel, .closeConn], w)
      else
        ([.queryExists albumID, .dial, .openChannel,
          .publish (lit "") (lit "reviewQueue") false false msg,
          .respond StatusCreated (lit "Review accepted"),
          .closeChannel, .closeConn],
         w.publish (lit "") (lit "reviewQueue") msg)

/-- The status codes written to the HTTP caller. -/
def statuses : List Effect → List Nat
  | [] => []
  | .respond st _ :: es => st :: statuses es
  | _ :: es => statuses es

/-- The calls of `ch.Publish`: routing key and message. -/
def publishCalls : List Effect → List (GoString × Publishing)
  | [] => []
  | .publish _ key _ _ msg :: es => (key, msg) :: publishCalls es
  | _ :: es => publishCalls es

/-- The number of calls of `amqp.Dial`. -/
def dialCalls : List Effect → Nat
  | [] => 0
  | .dial :: es => dialCalls es + 1
  | _ :: es => dialCalls es

/-- The number of calls of `conn.Channel`. -/
def channelCalls : List Effect → Nat
  | [] => 0
  | .openChannel :: es => channelCalls es + 1
  | _ :: es => channelCalls es

/-- The number of existence queries sent to the store. -/
def queryCalls : List Effect → Nat
  | [] => 0
  | .queryExists _ :: es => queryCalls es + 1
  | _ :: es => queryCalls es

end Producer

/-! ## The consumer: the message loop of `main` (src/review_consumer.go 62-86) -/

namespace Consumer

/-- The calls the loop makes on its collaborators, in order. -/
inductive Effect where
  | logDecodeError
  | insert (albumID action : GoString)
  | logInsertError
  | nack (multiple requeue : Bool)
  | ack (multiple : Bool)
  | logSaved (albumID action : GoString)
  deriving DecidableEq

/-- The body of `for d := range msgs`: one delivery `d`, already taken off the queue;
`insertErr` tells whether `db.Exec` returns an error. -/
def handleDelivery (insertErr : Bool) (d : Publishing) (w : World) : List Effect × World :=
  let r := unmarshal d.Body ⟨[], []⟩
  let review := r.1
  match r.2 with
  | some _ => ([.logDecodeError, .nack false false], w.nack d false)
  | none =>
    let w1 := w.insertReview insertErr review.AlbumID review.Action
    if insertErr then
      ([.insert review.AlbumID review.Action, .logInsertError, .nack false true],
       w1.nack d true)
    else
      ([.insert review.AlbumID review.Action, .ack false,
        .logSaved review.AlbumID review.Action], w1.ack d)

/-- The loop `for d := range msgs`, for at most `fuel` deliveries: the broker delivers the
head of the queue, the body runs, and the loop goes on; with an empty queue the loop
waits and nothing more happens.  `insertErr t` tells whether the insert fails
during the delivery numbered `t`. -/
def main (insertErr : Nat → Bool) : Nat → Nat → World → List Effect × World
  | 0, _, w => ([], w)
  | fuel + 1, t, w =>
    match w.reviewQueue with
    | [] => ([], w)
    | d :: q =>
      let r := handleDelivery (insertErr t) d { w with reviewQueue := q }
      let r2 := main insertErr fuel (t + 1) r.2
      (r.1 ++ r2.1, r2.2)

/-- The positive and negative acknowledgments among the effects. -/
def settlements : List Effect → List Effect
  | [] => []
  | .ack m :: es => .ack m :: settlements es
  | .nack m r :: es => .nack m r :: settlements es
  | _ :: es => settlements es

/-- The insert statements among the effects. -/
def inserts : List Effect → List Review
  | [] => []
  | .insert a b :: es => ⟨a, b⟩ :: inserts es
  | _ :: es => inserts es

end Consumer

/-! ## Facts about the UTF-8 functions and the JSON codec -/

theorem appendStringFrom_skip (k : Nat) (s : GoString) :
    appendStringFrom k s = appendStringFrom 0 (s.drop k) := by
  induction k generalizing s with
  | zero => simp
  | succ k ih =>
    cases s with
    | nil => simp [appendStringFrom]
    | cons b rest => simp [appendStringFrom, ih rest]

theorem coerceFrom_skip (k : Nat) (s : GoString) :
    coerceFrom k s = coerceFrom 0 (s.drop k) := by
  induction k generalizing s with
  | zero => simp
  | succ k ih =>
    cases s with
    | nil => simp [coerceFrom]
    | cons b rest => simp [coerceFrom, ih rest]

theorem validFrom_skip (k : Nat) (s : GoString) :
    validFrom k s = validFrom 0 (s.drop k) := by
  induction k generalizing s with
  | zero => simp
  | succ k ih =>
    cases s with
    | nil => simp [validFrom]
    | cons b rest => simp [validFrom, ih rest]

theorem lexFrom_skip (k : Nat) (s : GoString) :
    lexFrom k s = lexFrom 0 (s.drop k) := by
  induction k generalizing s with
  | zero => simp
  | succ k ih =>
    cases s with
    | nil => simp [lexFrom]
    | cons b rest => simp [lexFrom, ih rest]

theorem scanString_skip (k : Nat) (s : GoString) :
    scanString k s = (scanString 0 (s.drop k)).map fun r => (r.1, r.2 + k) := by
  induction k generalizing s with
  | zero =>
    rw [List.drop_zero]
    cases scanString 0 s <;> simp
  | succ k ih =>
    cases s with
    | nil => simp [scanString]
    | cons b rest =>
      simp only [scanString, List.drop_succ_cons]
      rw [ih rest]
      cases scanString 0 (List.drop k rest) <;> simp [Nat.add_assoc]

theorem accept_iff (b0 b1 : Nat) (h : 194 ≤ b0 ∧ b0 ≤ 244) :
    (acceptLo b0 ≤ b1 ∧ b1 ≤ acceptHi b0) ↔
      (128 ≤ b1 ∧ b1 ≤ 191 ∧ (b0 = 224 → 160 ≤ b1) ∧ (b0 = 237 → b1 ≤ 159)
        ∧ (b0 = 240 → 144 ≤ b1) ∧ (b0 = 244 → b1 ≤ 143)) := by
  unfold acceptLo acceptHi
  split_ifs <;> omega

theorem isCont_iff (b : Nat) : isCont b = true ↔ (128 ≤ b ∧ b ≤ 191) := by
  simp [isCont]

theorem decodeRune_case (s : GoString) : DecodeCase s (decodeRune s) := by
  cases s with
  | nil => exact .empty
  | cons b0 rest =>
    simp only [decodeRune]
    by_cases h1 : b0 < 128
    · rw [if_pos h1]; exact .ascii b0 rest h1
    rw [if_neg h1]
    have hinv : DecodeCase (b0 :: rest) (RuneError, 1) := .invalid b0 rest (by omega)
    by_cases h2 : 194 ≤ b0 ∧ b0 ≤ 223
    · rw [if_pos h2]
      cases rest with
      | nil => exact hinv
      | cons b1 rest =>
        simp only []
        by_cases ha : acceptLo b0 ≤ b1 ∧ b1 ≤ acceptHi b0
        · rw [if_pos ha]
          rw [accept_iff b0 b1 (by omega)] at ha
          exact .two b0 b1 rest h2 ⟨ha.1, ha.2.1⟩
        · rw [if_neg ha]; exact hinv
    rw [if_neg h2]
    by_cases h3 : 224 ≤ b0 ∧ b0 ≤ 239
    · rw [if_pos h3]
      rcases rest with _ | ⟨b1, _ | ⟨b2, rest⟩⟩
      · exact hinv
      · exact hinv
      · simp only []
        by_cases ha : acceptLo b0 ≤ b1 ∧ b1 ≤ acceptHi b0
        · rw [if_pos ha]
          rw [accept_iff b0 b1 (by omega)] at ha
          by_cases hb : isCont b2 = true
          · rw [if_pos hb]
            rw [isCont_iff] at hb
            exact .three b0 b1 b2 rest h3 ⟨ha.1, ha.2.1, ha.2.2.1, ha.2.2.2.1⟩ hb
          · rw [if_neg hb]; exact hinv
        · rw [if_neg ha]; exact hinv
    rw [if_neg h3]
    by_cases h4 : 240 ≤ b0 ∧ b0 ≤ 244
    · rw [if_pos h4]
      rcases rest with _ | ⟨b1, _ | ⟨b2, _ | ⟨b3, rest⟩⟩⟩
      · exact hinv
      · exact hinv
      · exact hinv
      · simp only []
        by_cases ha : acceptLo b0 ≤ b1 ∧ b1 ≤ acceptHi b0
        · rw [if_pos ha]
          rw [accept_iff b0 b1 (by omega)] at ha
          by_cases hb : isCont b2 = true
          · rw [if_pos hb]
            by_cases hc : isCont b3 = true
            · rw [if_pos hc]
              rw [isCont_iff] at hb hc
              exact .four b0 b1 b2 b3 rest h4 ⟨ha.1, ha.2.1, ha.2.2.2.2.1, ha.2.2.2.2.2⟩ hb hc
            · rw [if_neg hc]; exact hinv
          · rw [if_neg hb]; exact hinv
        · rw [if_neg ha]; exact hinv
    rw [if_neg h4]
    exact hinv

theorem scanString_cons (b : Nat) (rest out : GoString) (n : Nat) (hb : b ≠ 34)
    (hu : unquoteStep (b :: rest) = some (out, n)) (hn : 1 ≤ n) :
    scanString 0 (b :: rest)
      = (scanString 0 ((b :: rest).drop n)).map fun r => (out ++ r.1, r.2 + n) := by
  obtain ⟨m, rfl⟩ : ∃ m, n = m + 1 := ⟨n - 1, by omega⟩
  simp only [scanString, if_neg hb, hu, Nat.add_sub_cancel, List.drop_succ_cons]
  rw [scanString_skip m rest]
  cases scanString 0 (List.drop m rest) <;> simp [Nat.add_assoc]

theorem hexVal_hexDigit (n : Nat) (h : n < 16) : hexVal (hexDigit n) = some n := by
  unfold hexVal hexDigit
  split_ifs <;> first | omega | simp

theorem getu4_ascii (b : Nat) (tail : GoString) (h : b < 128) :
    getu4 (92 :: 117 :: 48 :: 48 :: hexDigit (b / 16) :: hexDigit (b % 16) :: tail) = some b := by
  have h1 := hexVal_hexDigit (b / 16) (by omega)
  have h2 := hexVal_hexDigit (b % 16) (by omega)
  have h0 : hexVal 48 = some 0 := by decide
  simp only [getu4, h0, h1, h2, and_self, if_true]
  simp
  omega

theorem decodeRune_pos (b : Nat) (rest : GoString) : 1 ≤ (decodeRune (b :: rest)).2 := by
  have hc := decodeRune_case (b :: rest)
  generalize decodeRune (b :: rest) = d at hc
  cases hc <;> simp

theorem appendStringStep_size (b : Nat) (rest : GoString) :
    (appendStringStep (b :: rest)).2 = (decodeRune (b :: rest)).2 := by
  have hc := decodeRune_case (b :: rest)
  generalize hd : decodeRune (b :: rest) = d at hc
  simp only [appendStringStep, hd]
  cases hc with
  | ascii _ _ h => simp only [if_pos h]; split_ifs <;> rfl
  | invalid _ _ h => simp [show ¬ b < 128 by omega]
  | two _ b1 rest h0 h1 => simp only [if_neg (show ¬ b < 128 by omega)]; split_ifs <;> first | rfl | (exfalso; simp_all)
  | three _ b1 b2 rest h0 h1 h2 => simp only [if_neg (show ¬ b < 128 by omega)]; split_ifs <;> first | rfl | (exfalso; simp_all)
  | four _ b1 b2 b3 rest h0 h1 h2 h3 => simp only [if_neg (show ¬ b < 128 by omega)]; split_ifs <;> first | rfl | (exfalso; simp_all)

theorem appendStringFrom_cons (b : Nat) (rest : GoString) :
    appendStringFrom 0 (b :: rest) = (appendStringStep (b :: rest)).1
      ++ appendStringFrom 0 ((b :: rest).drop (decodeRune (b :: rest)).2) := by
  have hp := decodeRune_pos b rest
  obtain ⟨m, hm⟩ : ∃ m, (decodeRune (b :: rest)).2 = m + 1 :=
    ⟨(decodeRune (b :: rest)).2 - 1, by omega⟩
  simp only [appendStringFrom]
  rw [appendStringFrom_skip, appendStringStep_size, hm]
  simp

theorem coerceFrom_cons (b : Nat) (rest : GoString) :
    coerceFrom 0 (b :: rest) = coerceHead (b :: rest)
      ++ coerceFrom 0 ((b :: rest).drop (decodeRune (b :: rest)).2) := by
  have hp := decodeRune_pos b rest
  obtain ⟨m, hm⟩ : ∃ m, (decodeRune (b :: rest)).2 = m + 1 :=
    ⟨(decodeRune (b :: rest)).2 - 1, by omega⟩
  simp only [coerceFrom, coerceHead]
  split_ifs with h
  · rw [h.2]; simp
  · rw [coerceFrom_skip, hm]; simp
theorem coerceHead_ascii (b : Nat) (rest : GoString) (h : b < 128) :
    coerceHead (b :: rest) = [b] := by
  have hd : decodeRune (b :: rest) = (b, 1) := by simp only [decodeRune]; rw [if_pos h]
  have hne : ¬(b = RuneError ∧ True) := by unfold RuneError; omega
  simp only [coerceHead, hd]
  rw [if_neg hne]
  rfl

theorem encodeRune_ascii (b : Nat) (h : b < 128) : encodeRune b = [b] := by
  unfold encodeRune
  rw [if_pos (by omega)]

theorem unquoteStep_plain (b : Nat) (tail : GoString) (h : 32 ≤ b) (hlt : b < 128)
    (h34 : b ≠ 34) (h92 : b ≠ 92) : unquoteStep (b :: tail) = some ([b], 1) := by
  simp only [unquoteStep]
  rw [if_neg h92, if_neg (by omega), if_pos hlt]

theorem unquoteStep_u00 (b : Nat) (tail : GoString) (h : b < 128) :
    unquoteStep (92 :: 117 :: 48 :: 48 :: hexDigit (b / 16) :: hexDigit (b % 16) :: tail)
      = some ([b], 6) := by
  simp only [unquoteStep, getu4_ascii b tail h]
  rw [if_pos trivial, if_neg (by decide), if_neg (by decide), if_neg (by decide),
    if_neg (by decide), if_neg (by decide), if_neg (by decide), if_pos trivial,
    if_neg (by omega), encodeRune_ascii b h]

theorem scanString_chunk_ascii (b : Nat) (rest tail : GoString) (h : b < 128) :
    scanString 0 ((appendStringStep (b :: rest)).1 ++ tail)
      = (scanString 0 tail).map fun r =>
          ([b] ++ r.1, r.2 + (appendStringStep (b :: rest)).1.length) := by
  simp only [appendStringStep, if_pos h]
  split_ifs with h1 h2 h3 h4 h5 h6 h7
  · simp only [htmlSafeSet, Bool.and_eq_true, decide_eq_true_eq, Bool.not_eq_true',
      Bool.or_eq_false_iff, decide_eq_false_iff_not] at h1
    rw [List.singleton_append, scanString_cons b tail [b] 1 (by omega)
      (unquoteStep_plain b tail (by omega) h (by omega) (by omega)) (by omega)]
    simp
  · rw [show [92, b] ++ tail = 92 :: b :: tail from rfl, scanString_cons 92 _ [b] 2 (by omega)
      (by rcases h2 with h2 | h2 <;> subst h2 <;> rfl) (by omega)]
    simp
  · rw [show [92, 98] ++ tail = 92 :: 98 :: tail from rfl, scanString_cons 92 _ [b] 2 (by omega)
      (by subst h3; rfl) (by omega)]
    simp
  · rw [show [92, 102] ++ tail = 92 :: 102 :: tail from rfl, scanString_cons 92 _ [b] 2 (by omega)
      (by subst h4; rfl) (by omega)]
    simp
  · rw [show [92, 110] ++ tail = 92 :: 110 :: tail from rfl, scanString_cons 92 _ [b] 2 (by omega)
      (by subst h5; rfl) (by omega)]
    simp
  · rw [show [92, 114] ++ tail = 92 :: 114 :: tail from rfl, scanString_cons 92 _ [b] 2 (by omega)
      (by subst h6; rfl) (by omega)]
    simp
  · rw [show [92, 116] ++ tail = 92 :: 116 :: tail from rfl, scanString_cons 92 _ [b] 2 (by omega)
      (by subst h7; rfl) (by omega)]
    simp
  · rw [show [92, 117, 48, 48, hexDigit (b / 16), hexDigit (b % 16)] ++ tail
        = 92 :: 117 :: 48 :: 48 :: hexDigit (b / 16) :: hexDigit (b % 16) :: tail from rfl,
      scanString_cons 92 _ [b] 6 (by omega) (unquoteStep_u00 b tail h) (by omega)]
    simp

theorem decodeRune_two (b0 b1 : Nat) (tail : GoString) (h0 : 194 ≤ b0 ∧ b0 ≤ 223)
    (h1 : 128 ≤ b1 ∧ b1 ≤ 191) :
    decodeRune (b0 :: b1 :: tail) = (b0 % 32 * 64 + b1 % 64, 2) := by
  have ha : acceptLo b0 ≤ b1 ∧ b1 ≤ acceptHi b0 := by
    rw [accept_iff b0 b1 (by omega)]; omega
  simp only [decodeRune]
  rw [if_neg (by omega), if_pos h0, if_pos ha]

theorem decodeRune_three (b0 b1 b2 : Nat) (tail : GoString) (h0 : 224 ≤ b0 ∧ b0 ≤ 239)
    (h1 : 128 ≤ b1 ∧ b1 ≤ 191 ∧ (b0 = 224 → 160 ≤ b1) ∧ (b0 = 237 → b1 ≤ 159))
    (h2 : 128 ≤ b2 ∧ b2 ≤ 191) :
    decodeRune (b0 :: b1 :: b2 :: tail) = (b0 % 16 * 4096 + b1 % 64 * 64 + b2 % 64, 3) := by
  have ha : acceptLo b0 ≤ b1 ∧ b1 ≤ acceptHi b0 := by
    rw [accept_iff b0 b1 (by omega)]; omega
  have hb : isCont b2 = true := (isCont_iff b2).2 h2
  simp only [decodeRune]
  rw [if_neg (by omega), if_neg (by omega), if_pos h0, if_pos ha, if_pos hb]

theorem decodeRune_four (b0 b1 b2 b3 : Nat) (tail : GoString) (h0 : 240 ≤ b0 ∧ b0 ≤ 244)
    (h1 : 128 ≤ b1 ∧ b1 ≤ 191 ∧ (b0 = 240 → 144 ≤ b1) ∧ (b0 = 244 → b1 ≤ 143))
    (h2 : 128 ≤ b2 ∧ b2 ≤ 191) (h3 : 128 ≤ b3 ∧ b3 ≤ 191) :
    decodeRune (b0 :: b1 :: b2 :: b3 :: tail)
      = (b0 % 8 * 262144 + b1 % 64 * 4096 + b2 % 64 * 64 + b3 % 64, 4) := by
  have ha : acceptLo b0 ≤ b1 ∧ b1 ≤ acceptHi b0 := by
    rw [accept_iff b0 b1 (by omega)]; omega
  have hb : isCont b2 = true := (isCont_iff b2).2 h2
  have hc : isCont b3 = true := (isCont_iff b3).2 h3
  simp only [decodeRune]
  rw [if_neg (by omega), if_neg (by omega), if_neg (by omega), if_pos h0, if_pos ha, if_pos hb,
    if_pos hc]

theorem encodeRune_two (b0 b1 : Nat) (h0 : 194 ≤ b0 ∧ b0 ≤ 223) (h1 : 128 ≤ b1 ∧ b1 ≤ 191) :
    encodeRune (b0 % 32 * 64 + b1 % 64) = [b0, b1] := by
  unfold encodeRune
  rw [if_neg (by omega), if_pos (by omega)]
  simp only [List.cons.injEq, and_true]
  omega

theorem encodeRune_three (b0 b1 b2 : Nat) (h0 : 224 ≤ b0 ∧ b0 ≤ 239)
    (h1 : 128 ≤ b1 ∧ b1 ≤ 191 ∧ (b0 = 224 → 160 ≤ b1) ∧ (b0 = 237 → b1 ≤ 159))
    (h2 : 128 ≤ b2 ∧ b2 ≤ 191) :
    encodeRune (b0 % 16 * 4096 + b1 % 64 * 64 + b2 % 64) = [b0, b1, b2] := by
  unfold encodeRune MaxRune
  rw [if_neg (by omega), if_neg (by omega), if_neg (by omega), if_pos (by omega)]
  simp only [List.cons.injEq, and_true]
  omega

theorem encodeRune_four (b0 b1 b2 b3 : Nat) (h0 : 240 ≤ b0 ∧ b0 ≤ 244)
    (h1 : 128 ≤ b1 ∧ b1 ≤ 191 ∧ (b0 = 240 → 144 ≤ b1) ∧ (b0 = 244 → b1 ≤ 143))
    (h2 : 128 ≤ b2 ∧ b2 ≤ 191) (h3 : 128 ≤ b3 ∧ b3 ≤ 191) :
    encodeRune (b0 % 8 * 262144 + b1 % 64 * 4096 + b2 % 64 * 64 + b3 % 64)
      = [b0, b1, b2, b3] := by
  unfold encodeRune MaxRune
  rw [if_neg (by omega), if_neg (by omega), if_neg (by omega), if_neg (by omega)]
  simp only [List.cons.injEq, and_true]
  omega
theorem unquoteStep_high (b : Nat) (rest : GoString) (h : 128 ≤ b) :
    unquoteStep (b :: rest)
      = some (encodeRune (decodeRune (b :: rest)).1, (decodeRune (b :: rest)).2) := by
  simp only [unquoteStep]
  rw [if_neg (by omega), if_neg (by omega), if_neg (by omega)]

theorem scanString_chunk (b : Nat) (rest tail : GoString) :
    scanString 0 ((appendStringStep (b :: rest)).1 ++ tail)
      = (scanString 0 tail).map fun r =>
          (coerceHead (b :: rest) ++ r.1, r.2 + (appendStringStep (b :: rest)).1.length) := by
  have hc := decodeRune_case (b :: rest)
  generalize hd : decodeRune (b :: rest) = d at hc
  cases hc with
  | ascii _ _ h => rw [coerceHead_ascii b rest h]; exact scanString_chunk_ascii b rest tail h
  | invalid _ _ h =>
    have hs : appendStringStep (b :: rest) = ([92, 117, 102, 102, 102, 100], 1) := by
      simp only [appendStringStep, hd]
      rw [if_neg (by omega)]
      simp
    have hh : coerceHead (b :: rest) = [239, 191, 189] := by
      simp only [coerceHead, hd]
      simp
    rw [hs, hh, show [92, 117, 102, 102, 102, 100] ++ tail
        = 92 :: 117 :: 102 :: 102 :: 102 :: 100 :: tail from rfl,
      scanString_cons 92 (117 :: 102 :: 102 :: 102 :: 100 :: tail) [239, 191, 189] 6 (by omega) rfl
        (by omega)]
    simp
  | two _ b1 rest h0 h1 =>
    have hs : appendStringStep (b :: b1 :: rest) = ([b, b1], 2) := by
      simp only [appendStringStep, hd]
      rw [if_neg (by omega), if_neg (by simp), if_neg (by omega)]
      simp
    have hh : coerceHead (b :: b1 :: rest) = [b, b1] := by
      simp only [coerceHead, hd]
      simp
    rw [hs, hh, show [b, b1] ++ tail = b :: b1 :: tail from rfl,
      scanString_cons b _ [b, b1] 2 (by omega)
        (by rw [unquoteStep_high b _ (by omega), decodeRune_two b b1 tail h0 h1,
              encodeRune_two b b1 h0 h1]) (by omega)]
    simp
  | three _ b1 b2 rest h0 h1 h2 =>
    have hh : coerceHead (b :: b1 :: b2 :: rest) = [b, b1, b2] := by
      simp only [coerceHead, hd]
      simp
    rw [hh]
    by_cases hls : b % 16 * 4096 + b1 % 64 * 64 + b2 % 64 = 0x2028
      ∨ b % 16 * 4096 + b1 % 64 * 64 + b2 % 64 = 0x2029
    · have hs : appendStringStep (b :: b1 :: b2 :: rest)
          = ([92, 117, 50, 48, 50,
              hexDigit ((b % 16 * 4096 + b1 % 64 * 64 + b2 % 64) % 16)], 3) := by
        simp only [appendStringStep, hd]
        rw [if_neg (by omega), if_neg (by simp), if_pos hls]
      rw [hs]
      have e0 : b = 226 := by omega
      have e1 : b1 = 128 := by omega
      rcases hls with hls | hls
      · have e2 : b2 = 168 := by omega
        subst e0 e1 e2
        rw [show [92, 117, 50, 48, 50, hexDigit ((226 % 16 * 4096 + 128 % 64 * 64 + 168 % 64) % 16)]
            ++ tail = 92 :: 117 :: 50 :: 48 :: 50 :: 56 :: tail from rfl,
          scanString_cons 92 (117 :: 50 :: 48 :: 50 :: 56 :: tail) [226, 128, 168] 6 (by omega) rfl
            (by omega)]
        simp
      · have e2 : b2 = 169 := by omega
        subst e0 e1 e2
        rw [show [92, 117, 50, 48, 50, hexDigit ((226 % 16 * 4096 + 128 % 64 * 64 + 169 % 64) % 16)]
            ++ tail = 92 :: 117 :: 50 :: 48 :: 50 :: 57 :: tail from rfl,
          scanString_cons 92 (117 :: 50 :: 48 :: 50 :: 57 :: tail) [226, 128, 169] 6 (by omega) rfl
            (by omega)]
        simp
    · have hs : appendStringStep (b :: b1 :: b2 :: rest) = ([b, b1, b2], 3) := by
        simp only [appendStringStep, hd]
        rw [if_neg (by omega), if_neg (by simp), if_neg hls]
        simp
      rw [hs, show [b, b1, b2] ++ tail = b :: b1 :: b2 :: tail from rfl,
        scanString_cons b _ [b, b1, b2] 3 (by omega)
          (by rw [unquoteStep_high b _ (by omega), decodeRune_three b b1 b2 tail h0 h1 h2,
                encodeRune_three b b1 b2 h0 h1 h2]) (by omega)]
      simp
  | four _ b1 b2 b3 rest h0 h1 h2 h3 =>
    have hs : appendStringStep (b :: b1 :: b2 :: b3 :: rest) = ([b, b1, b2, b3], 4) := by
      simp only [appendStringStep, hd]
      rw [if_neg (by omega), if_neg (by simp), if_neg (by omega)]
      simp
    have hh : coerceHead (b :: b1 :: b2 :: b3 :: rest) = [b, b1, b2, b3] := by
      simp only [coerceHead, hd]
      simp
    rw [hs, hh, show [b, b1, b2, b3] ++ tail = b :: b1 :: b2 :: b3 :: tail from rfl,
      scanString_cons b _ [b, b1, b2, b3] 4 (by omega)
        (by rw [unquoteStep_high b _ (by omega), decodeRune_four b b1 b2 b3 tail h0 h1 h2 h3,
              encodeRune_four b b1 b2 b3 h0 h1 h2 h3]) (by omega)]
    simp

theorem scanString_appendStringFrom_aux (n : Nat) :
    ∀ s tail : GoString, s.length ≤ n →
      scanString 0 (appendStringFrom 0 s ++ 34 :: tail)
        = some (toValidUTF8 s, (appendStringFrom 0 s).length + 1) := by
  induction n with
  | zero =>
    intro s tail hs
    have : s = [] := List.length_eq_zero.mp (by omega)
    subst this
    rfl
  | succ n ih =>
    intro s tail hs
    cases s with
    | nil => rfl
    | cons b rest =>
      have hp := decodeRune_pos b rest
      have hlen : ((b :: rest).drop (decodeRune (b :: rest)).2).length ≤ n := by
        rw [List.length_drop]
        simp only [List.length_cons] at hs ⊢
        omega
      have h := ih ((b :: rest).drop (decodeRune (b :: rest)).2) tail hlen
      unfold toValidUTF8 at h ⊢
      rw [appendStringFrom_cons, coerceFrom_cons, List.append_assoc, scanString_chunk, h]
      simp only [Option.map_some', List.length_append, Option.some.injEq, Prod.mk.injEq, true_and]
      omega

theorem scanString_appendStringFrom (s tail : GoString) :
    scanString 0 (appendStringFrom 0 s ++ 34 :: tail)
      = some (toValidUTF8 s, (appendStringFrom 0 s).length + 1) :=
  scanString_appendStringFrom_aux s.length s tail (Nat.le_refl _)

theorem lexFrom_string (s tail : GoString) :
    lexFrom 0 (appendString s ++ tail)
      = (lexFrom 0 tail).map fun ts => Token.str (toValidUTF8 s) :: ts := by
  have h := scanString_appendStringFrom s tail
  have e : appendString s ++ tail = 34 :: (appendStringFrom 0 s ++ 34 :: tail) := by
    simp [appendString]
  have hl : lexStep (34 :: (appendStringFrom 0 s ++ 34 :: tail))
      = some (some (.str (toValidUTF8 s)), (appendStringFrom 0 s).length + 1 + 1) := by
    simp only [lexStep, h]
    rw [if_neg (by decide), if_neg (by decide), if_neg (by decide), if_neg (by decide),
      if_neg (by decide), if_neg (by decide), if_neg (by decide), if_pos trivial]
  rw [e]
  simp only [lexFrom, hl, Nat.add_sub_cancel]
  rw [lexFrom_skip]
  simp
  cases lexFrom 0 tail <;> simp

theorem lexFrom_lbrace (tail : GoString) :
    lexFrom 0 (123 :: tail) = (lexFrom 0 tail).map fun ts => Token.lbrace :: ts := by
  have hl : lexStep (123 :: tail) = some (some .lbrace, 1) := rfl
  simp only [lexFrom, hl]
  cases lexFrom 0 tail <;> simp

theorem lexFrom_rbrace (tail : GoString) :
    lexFrom 0 (125 :: tail) = (lexFrom 0 tail).map fun ts => Token.rbrace :: ts := by
  have hl : lexStep (125 :: tail) = some (some .rbrace, 1) := rfl
  simp only [lexFrom, hl]
  cases lexFrom 0 tail <;> simp

theorem lexFrom_colon (tail : GoString) :
    lexFrom 0 (58 :: tail) = (lexFrom 0 tail).map fun ts => Token.colon :: ts := by
  have hl : lexStep (58 :: tail) = some (some .colon, 1) := rfl
  simp only [lexFrom, hl]
  cases lexFrom 0 tail <;> simp

theorem lexFrom_comma (tail : GoString) :
    lexFrom 0 (44 :: tail) = (lexFrom 0 tail).map fun ts => Token.comma :: ts := by
  have hl : lexStep (44 :: tail) = some (some .comma, 1) := rfl
  simp only [lexFrom, hl]
  cases lexFrom 0 tail <;> simp

theorem marshal_eq (review : Review) :
    marshal review = 123 :: (appendString (lit "albumID") ++ 58 :: (appendString review.AlbumID
      ++ 44 :: (appendString (lit "action") ++ 58 :: (appendString review.Action ++ [125])))) := by
  have l1 : lit "\x7b\"albumID\":" = 123 :: (appendString (lit "albumID") ++ [58]) := by decide
  have l2 : lit ",\"action\":" = 44 :: (appendString (lit "action") ++ [58]) := by decide
  have l3 : lit "\x7d" = [125] := by decide
  unfold marshal
  rw [l1, l2, l3]
  simp [List.append_assoc]

theorem lexFrom_marshal (review : Review) :
    lexFrom 0 (marshal review) = some [.lbrace, .str (lit "albumID"), .colon,
      .str (toValidUTF8 review.AlbumID), .comma, .str (lit "action"), .colon,
      .str (toValidUTF8 review.Action), .rbrace] := by
  have k1 : toValidUTF8 (lit "albumID") = lit "albumID" := by decide
  have k2 : toValidUTF8 (lit "action") = lit "action" := by decide
  rw [marshal_eq, lexFrom_lbrace, lexFrom_string, lexFrom_colon, lexFrom_string, lexFrom_comma,
    lexFrom_string, lexFrom_colon, lexFrom_string, lexFrom_rbrace, k1, k2]
  rfl

theorem unmarshal_marshal (review zero : Review) :
    unmarshal (marshal review) zero
      = (⟨toValidUTF8 review.AlbumID, toValidUTF8 review.Action⟩, none) := by
  have hp : parseJSON (marshal review) = some (.object [(lit "albumID",
      .string (toValidUTF8 review.AlbumID)), (lit "action", .string (toValidUTF8 review.Action))]) := by
    simp only [parseJSON, lexFrom_marshal]
    rfl
  have f1 : findField (lit "albumID") = some .AlbumID := by decide
  have f2 : findField (lit "action") = some .Action := by decide
  simp only [unmarshal, hp, storeObject, f1, f2, storeField]
  simp

theorem toValidUTF8_of_valid_aux (n : Nat) :
    ∀ s : GoString, s.length ≤ n → validString s = true → toValidUTF8 s = s := by
  induction n with
  | zero =>
    intro s hs _
    have : s = [] := List.length_eq_zero.mp (by omega)
    subst this
    rfl
  | succ n ih =>
    intro s hs hv
    cases s with
    | nil => rfl
    | cons b rest =>
      have hp := decodeRune_pos b rest
      obtain ⟨m, hm⟩ : ∃ m, (decodeRune (b :: rest)).2 = m + 1 :=
        ⟨(decodeRune (b :: rest)).2 - 1, by omega⟩
      have hlen : ((b :: rest).drop (decodeRune (b :: rest)).2).length ≤ n := by
        rw [List.length_drop]
        simp only [List.length_cons] at hs ⊢
        omega
      unfold validString at hv
      simp only [validFrom] at hv
      by_cases hinv : (decodeRune (b :: rest)).1 = RuneError ∧ (decodeRune (b :: rest)).2 = 1
      · rw [if_pos hinv] at hv; exact absurd hv (by simp)
      · rw [if_neg hinv, validFrom_skip] at hv
        have hv2 : validString ((b :: rest).drop (decodeRune (b :: rest)).2) = true := by
          unfold validString
          rw [hm, List.drop_succ_cons]
          rw [hm] at hv
          exact hv
        have h := ih _ hlen hv2
        unfold toValidUTF8 at h ⊢
        rw [coerceFrom_cons, h]
        simp only [coerceHead, if_neg hinv]
        exact List.take_append_drop _ _

theorem toValidUTF8_of_valid (s : GoString) (h : validString s = true) : toValidUTF8 s = s :=
  toValidUTF8_of_valid_aux s.length s (Nat.le_refl _) h

namespace Producer

theorem handleReview_action_ok (likeOrNot : GoString)
    (hact : likeOrNot = lit "like" ∨ likeOrNot = lit "dislike") :
    ¬(likeOrNot ≠ lit "like" ∧ likeOrNot ≠ lit "dislike") := by
  rcases hact with h | h <;> simp [h]

/-- C1: for every action other than "like" and "dislike", whatever the albumID, the store
and the broker, `handleReview` answers 400 and does nothing else: it sends no query to
the store, does not dial the broker, publishes nothing, and leaves the world as it
was. -/
theorem handleReview_invalid_action (env : Env) (likeOrNot albumID : GoString) (w : World)
    (h1 : likeOrNot ≠ lit "like") (h2 : likeOrNot ≠ lit "dislike") :
    (handleReview env likeOrNot albumID w).1 = [.respond 400 (lit "Invalid review action")]
    ∧ statuses (handleReview env likeOrNot albumID w).1 = [400]
    ∧ publishCalls (handleReview env likeOrNot albumID w).1 = []
    ∧ queryCalls (handleReview env likeOrNot albumID w).1 = 0
    ∧ dialCalls (handleReview env likeOrNot albumID w).1 = 0
    ∧ (handleReview env likeOrNot albumID w).2 = w := by
  have h : handleReview env likeOrNot albumID w
      = ([.respond 400 (lit "Invalid review action")], w) := by
    unfold handleReview
    rw [if_pos ⟨h1, h2⟩]
    rfl
  rw [h]
  exact ⟨rfl, rfl, rfl, rfl, rfl, rfl⟩

theorem handleReview_invalid_action_witness :
    statuses (handleReview ⟨false, true, false, false⟩ (lit "love") (lit "ALBUM-1")
      ⟨[], [], []⟩).1 = [400]
    ∧ publishCalls (handleReview ⟨false, true, false, false⟩ (lit "love") (lit "ALBUM-1")
      ⟨[], [], []⟩).1 = [] :=
  have h := handleReview_invalid_action ⟨false, true, false, false⟩ (lit "love") (lit "ALBUM-1")
    ⟨[], [], []⟩ (by decide) (by decide)
  ⟨h.2.1, h.2.2.1⟩

/-- C2: for an action in {like, dislike} and an albumID for which the existence query
reports no row, `handleReview` answers 404, does not dial the broker, publishes nothing
and leaves the world as it was, whatever the broker would have answered. -/
theorem handleReview_album_not_found (env : Env) (likeOrNot albumID : GoString) (w : World)
    (hact : likeOrNot = lit "like" ∨ likeOrNot = lit "dislike")
    (hq : env.queryErr = false) (habs : w.albumExists albumID = false) :
    statuses (handleReview env likeOrNot albumID w).1 = [404]
    ∧ publishCalls (handleReview env likeOrNot albumID w).1 = []
    ∧ dialCalls (handleReview env likeOrNot albumID w).1 = 0
    ∧ (handleReview env likeOrNot albumID w).2 = w := by
  have h : handleReview env likeOrNot albumID w
      = ([.queryExists albumID, .respond 404 (lit "Album not found")], w) := by
    unfold handleReview
    rw [if_neg (handleReview_action_ok likeOrNot hact)]
    simp [hq, habs, StatusNotFound]
  rw [h]
  exact ⟨rfl, rfl, rfl, rfl⟩

theorem handleReview_album_not_found_witness :
    statuses (handleReview ⟨false, true, true, true⟩ (lit "like") (lit "GHOST")
      ⟨[lit "ALBUM-1"], [], []⟩).1 = [404]
    ∧ (handleReview ⟨false, true, true, true⟩ (lit "like") (lit "GHOST")
      ⟨[lit "ALBUM-1"], [], []⟩).2.reviewQueue = [] :=
  have h := handleReview_album_not_found ⟨false, true, true, true⟩ (lit "like") (lit "GHOST")
    ⟨[lit "ALBUM-1"], [], []⟩ (by decide) rfl (by decide)
  ⟨h.1, by rw [h.2.2.2]⟩

theorem handleReview_all_ok (env : Env) (likeOrNot albumID : GoString) (w : World)
    (hact : likeOrNot = lit "like" ∨ likeOrNot = lit "dislike")
    (hq : env.queryErr = false) (hex : w.albumExists albumID = true)
    (hd : env.dialErr = false) (hc : env.channelErr = false) (hp : env.publishErr = false) :
    handleReview env likeOrNot albumID w
      = ([.queryExists albumID, .dial, .openChannel,
          .publish (lit "") (lit "reviewQueue") false false
            ⟨lit "application/json", marshal ⟨albumID, likeOrNot⟩⟩,
          .respond 201 (lit "Review accepted"), .closeChannel, .closeConn],
         { w with reviewQueue := w.reviewQueue
            ++ [⟨lit "application/json", marshal ⟨albumID, likeOrNot⟩⟩] }) := by
  unfold handleReview
  rw [if_neg (handleReview_action_ok likeOrNot hact)]
  simp [hq, hex, hd, hc, hp, StatusCreated, World.publish]

/-- C3: for an action in {like, dislike} and an albumID that exists in the store, when
connect, channel-open and publish all succeed, `handleReview` calls `Publish` exactly
once, with routing key "reviewQueue", answers 201, the queue holds exactly one message
more, and the tables of the store are as they were: no review record is written. -/
theorem handleReview_accepts (env : Env) (likeOrNot albumID : GoString) (w : World)
    (hact : likeOrNot = lit "like" ∨ likeOrNot = lit "dislike")
    (hq : env.queryErr = false) (hex : w.albumExists albumID = true)
    (hd : env.dialErr = false) (hc : env.channelErr = false) (hp : env.publishErr = false) :
    publishCalls (handleReview env likeOrNot albumID w).1
      = [(lit "reviewQueue", ⟨lit "application/json", marshal ⟨albumID, likeOrNot⟩⟩)]
    ∧ statuses (handleReview env likeOrNot albumID w).1 = [201]
    ∧ (handleReview env likeOrNot albumID w).2.reviewQueue
      = w.reviewQueue ++ [⟨lit "application/json", marshal ⟨albumID, likeOrNot⟩⟩]
    ∧ (handleReview env likeOrNot albumID w).2.reviews = w.reviews
    ∧ (handleReview env likeOrNot albumID w).2.albums = w.albums := by
  rw [handleReview_all_ok env likeOrNot albumID w hact hq hex hd hc hp]
  exact ⟨rfl, rfl, rfl, rfl, rfl⟩

theorem handleReview_accepts_witness :
    statuses (handleReview ⟨false, false, false, false⟩ (lit "dislike") (lit "ALBUM-1")
      ⟨[lit "ALBUM-1"], [], []⟩).1 = [201]
    ∧ (handleReview ⟨false, false, false, false⟩ (lit "dislike") (lit "ALBUM-1")
      ⟨[lit "ALBUM-1"], [], []⟩).2.reviews = [] :=
  have h := handleReview_accepts ⟨false, false, false, false⟩ (lit "dislike") (lit "ALBUM-1")
    ⟨[lit "ALBUM-1"], [], []⟩ (by decide) rfl (by decide) rfl rfl rfl
  ⟨h.2.1, h.2.2.2.1⟩

/-- C8: for an action in {like, dislike} and an existing albumID, if connecting, opening
the channel or publishing fails, `handleReview` answers 500 and nothing else (so not
201), dials once and calls `Publish` at most once (no retry); after a failed connect
no channel is opened and nothing is published, after a failed channel-open nothing is
published. -/
theorem handleReview_transport_error (env : Env) (likeOrNot albumID : GoString) (w : World)
    (hact : likeOrNot = lit "like" ∨ likeOrNot = lit "dislike")
    (hq : env.queryErr = false) (hex : w.albumExists albumID = true)
    (hfail : env.dialErr = true ∨ env.channelErr = true ∨ env.publishErr = true) :
    statuses (handleReview env likeOrNot albumID w).1 = [500]
    ∧ 201 ∉ statuses (handleReview env likeOrNot albumID w).1
    ∧ dialCalls (handleReview env likeOrNot albumID w).1 = 1
    ∧ channelCalls (handleReview env likeOrNot albumID w).1 ≤ 1
    ∧ (publishCalls (handleReview env likeOrNot albumID w).1).length ≤ 1
    ∧ (env.dialErr = true → channelCalls (handleReview env likeOrNot albumID w).1 = 0
        ∧ publishCalls (handleReview env likeOrNot albumID w).1 = [])
    ∧ (env.channelErr = true → publishCalls (handleReview env likeOrNot albumID w).1 = []) := by
  obtain ⟨q, d, c, p⟩ := env
  simp only at hq hfail ⊢
  subst hq
  unfold handleReview
  rw [if_neg (handleReview_action_ok likeOrNot hact)]
  cases d <;> cases c <;> cases p <;>
    simp_all [statuses, dialCalls, channelCalls, publishCalls, StatusInternalServerError]

theorem handleReview_transport_error_witness :
    statuses (handleReview ⟨false, false, false, true⟩ (lit "like") (lit "ALBUM-1")
      ⟨[lit "ALBUM-1"], [], []⟩).1 = [500]
    ∧ (publishCalls (handleReview ⟨false, false, false, true⟩ (lit "like") (lit "ALBUM-1")
      ⟨[lit "ALBUM-1"], [], []⟩).1).length ≤ 1 :=
  have h := handleReview_transport_error ⟨false, false, false, true⟩ (lit "like")
    (lit "ALBUM-1") ⟨[lit "ALBUM-1"], [], []⟩ (by decide) rfl (by decide) (by decide)
  ⟨h.1, h.2.2.2.2.1⟩

end Producer

theorem parseJSON_marshal (review : Review) :
    parseJSON (marshal review) = some (.object [(lit "albumID",
      .string (toValidUTF8 review.AlbumID)), (lit "action", .string (toValidUTF8 review.Action))]) := by
  simp only [parseJSON, lexFrom_marshal]
  rfl

namespace Producer

/-- C4, as the claim states it, fails: the albumID consisting of the single byte 0xFF, with
a row in the store, is published as `\ufffd` and decoded by the consumer as the three
bytes EF BF BD, not as the albumID submitted. -/
theorem handleReview_roundtrip_invalid_utf8 :
    World.albumExists ⟨[[255]], [], []⟩ [255] = true
    ∧ statuses (handleReview ⟨false, false, false, false⟩ (lit "like") [255]
        ⟨[[255]], [], []⟩).1 = [201]
    ∧ (handleReview ⟨false, false, false, false⟩ (lit "like") [255]
        ⟨[[255]], [], []⟩).2.reviewQueue
      = [⟨lit "application/json", lit "\x7b\"albumID\":\"\\ufffd\",\"action\":\"like\"\x7d"⟩]
    ∧ ((handleReview ⟨false, false, false, false⟩ (lit "like") [255]
        ⟨[[255]], [], []⟩).2.reviewQueue.map fun m => unmarshal m.Body ⟨[], []⟩)
      = [(⟨[239, 191, 189], lit "like"⟩, none)]
    ∧ ((handleReview ⟨false, false, false, false⟩ (lit "like") [255]
        ⟨[[255]], [], []⟩).2.reviewQueue.map fun m => unmarshal m.Body ⟨[], []⟩)
      ≠ [(⟨[255], lit "like"⟩, none)] := by
  decide

/-- C4, amended: for an action in {like, dislike} and an existing albumID, the one message
`handleReview` publishes is tagged application/json, its body is a JSON object, and
`json.Unmarshal` decodes the body without error to the action submitted and to the
albumID coerced to valid UTF-8; that is the albumID submitted whenever the albumID is
valid UTF-8.  For albumID "ALBUM-1" and action "like" the body is exactly
`{"albumID":"ALBUM-1","action":"like"}`. -/
theorem handleReview_message_roundtrip (env : Env) (likeOrNot albumID : GoString) (w : World)
    (hact : likeOrNot = lit "like" ∨ likeOrNot = lit "dislike")
    (hq : env.queryErr = false) (hex : w.albumExists albumID = true)
    (hd : env.dialErr = false) (hc : env.channelErr = false) (hp : env.publishErr = false) :
    publishCalls (handleReview env likeOrNot albumID w).1
      = [(lit "reviewQueue", ⟨lit "application/json", marshal ⟨albumID, likeOrNot⟩⟩)]
    ∧ parseJSON (marshal ⟨albumID, likeOrNot⟩) = some (.object
        [(lit "albumID", .string (toValidUTF8 albumID)), (lit "action", .string likeOrNot)])
    ∧ unmarshal (marshal ⟨albumID, likeOrNot⟩) ⟨[], []⟩
      = (⟨toValidUTF8 albumID, likeOrNot⟩, none)
    ∧ (validString albumID = true →
        unmarshal (marshal ⟨albumID, likeOrNot⟩) ⟨[], []⟩ = (⟨albumID, likeOrNot⟩, none))
    ∧ (albumID = lit "ALBUM-1" → likeOrNot = lit "like" →
        marshal ⟨albumID, likeOrNot⟩
          = lit "\x7b\"albumID\":\"ALBUM-1\",\"action\":\"like\"\x7d") := by
  have hv : toValidUTF8 likeOrNot = likeOrNot := by
    rcases hact with h | h <;> subst h <;> decide
  have hu := unmarshal_marshal ⟨albumID, likeOrNot⟩ ⟨[], []⟩
  have hj := parseJSON_marshal ⟨albumID, likeOrNot⟩
  simp only [hv] at hu hj
  refine ⟨?_, hj, hu, ?_, ?_⟩
  · rw [handleReview_all_ok env likeOrNot albumID w hact hq hex hd hc hp]
    rfl
  · intro hval
    rw [hu, toValidUTF8_of_valid albumID hval]
  · intro ha hl
    subst ha hl
    decide

theorem handleReview_message_roundtrip_witness :
    unmarshal (marshal ⟨lit "ALBUM-é", lit "dislike"⟩) ⟨[], []⟩
      = (⟨lit "ALBUM-é", lit "dislike"⟩, none) :=
  (handleReview_message_roundtrip ⟨false, false, false, false⟩ (lit "dislike") (lit "ALBUM-é")
    ⟨[lit "ALBUM-é"], [], []⟩ (by decide) rfl (by decide) rfl rfl rfl).2.2.2.1 (by decide)

end Producer

namespace Consumer

theorem main_cons (insertErr : Nat → Bool) (fuel t : Nat) (w : World) (d : Publishing)
    (q : List Publishing) (hq : w.reviewQueue = d :: q) :
    main insertErr (fuel + 1) t w
      = ((handleDelivery (insertErr t) d { w with reviewQueue := q }).1
          ++ (main insertErr fuel (t + 1)
                (handleDelivery (insertErr t) d { w with reviewQueue := q }).2).1,
         (main insertErr fuel (t + 1)
                (handleDelivery (insertErr t) d { w with reviewQueue := q }).2).2) := by
  simp only [main, hq]

theorem main_empty (insertErr : Nat → Bool) (fuel t : Nat) (w : World)
    (hq : w.reviewQueue = []) : main insertErr fuel t w = ([], w) := by
  cases fuel with
  | zero => rfl
  | succ n => simp only [main, hq]

theorem handleDelivery_error (insertErr : Bool) (d : Publishing) (w : World)
    (hdec : (unmarshal d.Body ⟨[], []⟩).2 ≠ none) :
    handleDelivery insertErr d w = ([.logDecodeError, .nack false false], w) := by
  cases h : (unmarshal d.Body ⟨[], []⟩).2 with
  | none => exact absurd h hdec
  | some e => simp [handleDelivery, h, World.nack]

theorem handleDelivery_insert_failed (d : Publishing) (w : World) (review : Review)
    (hdec : unmarshal d.Body ⟨[], []⟩ = (review, none)) :
    handleDelivery true d w
      = ([.insert review.AlbumID review.Action, .logInsertError, .nack false true],
         { w with reviewQueue := d :: w.reviewQueue }) := by
  simp [handleDelivery, hdec, World.nack, World.insertReview]

theorem handleDelivery_saved (d : Publishing) (w : World) (review : Review)
    (hdec : unmarshal d.Body ⟨[], []⟩ = (review, none)) :
    handleDelivery false d w
      = ([.insert review.AlbumID review.Action, .ack false,
          .logSaved review.AlbumID review.Action],
         { w with reviews := w.reviews ++ [review] }) := by
  simp [handleDelivery, hdec, World.ack, World.insertReview]

/-- C5: a delivered message whose payload fails to decode gets exactly one settlement,
`Nack(false, false)`: no Ack and no requeueing Nack; no insert is attempted, the
`reviews` table is as it was, the message is not put back on the queue, and the loop
goes on with the next message. -/
theorem decode_failure_discards (insertErr : Bool) (d : Publishing) (w : World)
    (hdec : (unmarshal d.Body ⟨[], []⟩).2 ≠ none) :
    settlements (handleDelivery insertErr d w).1 = [.nack false false]
    ∧ inserts (handleDelivery insertErr d w).1 = []
    ∧ (handleDelivery insertErr d w).2.reviews = w.reviews
    ∧ (handleDelivery insertErr d w).2.reviewQueue = w.reviewQueue
    ∧ (∀ (errs : Nat → Bool) (fuel t : Nat) (w0 : World) (q : List Publishing),
        w0.reviewQueue = d :: q →
        main errs (fuel + 1) t w0
          = ([.logDecodeError, .nack false false]
              ++ (main errs fuel (t + 1) { w0 with reviewQueue := q }).1,
             (main errs fuel (t + 1) { w0 with reviewQueue := q }).2)) := by
  rw [handleDelivery_error insertErr d w hdec]
  refine ⟨rfl, rfl, rfl, rfl, ?_⟩
  intro errs fuel t w0 q hq
  rw [main_cons errs fuel t w0 d q hq, handleDelivery_error _ d _ hdec]

theorem decode_failure_discards_witness :
    settlements (handleDelivery false ⟨lit "application/json", lit "not json"⟩
      ⟨[], [], []⟩).1 = [.nack false false]
    ∧ (handleDelivery false ⟨lit "application/json", lit "not json"⟩ ⟨[], [], []⟩).2.reviews
      = [] :=
  have h := decode_failure_discards false ⟨lit "application/json", lit "not json"⟩
    ⟨[], [], []⟩ (by decide)
  ⟨h.1, h.2.2.1⟩

/-- C6: a delivered message whose payload decodes but whose insert fails gets exactly one
settlement, `Nack(false, true)`: no Ack and no discarding Nack; one insert was
attempted, the `reviews` table has no new record, and the message is back on the
queue. -/
theorem insert_failure_requeues (d : Publishing) (w : World) (review : Review)
    (hdec : unmarshal d.Body ⟨[], []⟩ = (review, none)) :
    settlements (handleDelivery true d w).1 = [.nack false true]
    ∧ inserts (handleDelivery true d w).1 = [review]
    ∧ (handleDelivery true d w).2.reviews = w.reviews
    ∧ (handleDelivery true d w).2.reviewQueue = d :: w.reviewQueue := by
  rw [handleDelivery_insert_failed d w review hdec]
  exact ⟨rfl, rfl, rfl, rfl⟩

theorem insert_failure_requeues_witness :
    settlements (handleDelivery true
      ⟨lit "application/json", marshal ⟨lit "ALBUM-1", lit "like"⟩⟩ ⟨[], [], []⟩).1
      = [.nack false true]
    ∧ (handleDelivery true
      ⟨lit "application/json", marshal ⟨lit "ALBUM-1", lit "like"⟩⟩ ⟨[], [], []⟩).2.reviews
      = [] :=
  have h := insert_failure_requeues
    ⟨lit "application/json", marshal ⟨lit "ALBUM-1", lit "like"⟩⟩ ⟨[], [], []⟩
    ⟨lit "ALBUM-1", lit "like"⟩ (by decide)
  ⟨h.1, h.2.2.1⟩

/-- C7: a delivered message whose payload decodes to (albumID, action) and whose insert
succeeds appends exactly one record, carrying that albumID and action, and gets
exactly one settlement, an Ack, which comes after the insert; and in every run of the
loop body an Ack is preceded by the insert of a record that is then in the table. -/
theorem insert_success_acks (d : Publishing) (w : World) (review : Review)
    (hdec : unmarshal d.Body ⟨[], []⟩ = (review, none)) :
    (handleDelivery false d w).1
      = [.insert review.AlbumID review.Action, .ack false,
         .logSaved review.AlbumID review.Action]
    ∧ settlements (handleDelivery false d w).1 = [.ack false]
    ∧ inserts (handleDelivery false d w).1 = [review]
    ∧ (handleDelivery false d w).2.reviews = w.reviews ++ [review]
    ∧ (handleDelivery false d w).2.reviewQueue = w.reviewQueue
    ∧ (∀ (e : Bool) (d2 : Publishing) (w2 : World) (m : Bool) (pre post : List Effect),
        (handleDelivery e d2 w2).1 = pre ++ .ack m :: post →
        ∃ rv : Review, pre = [.insert rv.AlbumID rv.Action]
          ∧ (handleDelivery e d2 w2).2.reviews = w2.reviews ++ [rv]) := by
  rw [handleDelivery_saved d w review hdec]
  refine ⟨rfl, rfl, rfl, rfl, rfl, ?_⟩
  intro e d2 w2 m pre post h
  cases hu : (unmarshal d2.Body ⟨[], []⟩).2 with
  | some er =>
    rw [handleDelivery_error e d2 w2 (by rw [hu]; simp)] at h
    rcases pre with _ | ⟨a, _ | ⟨b, _ | ⟨c, pre⟩⟩⟩ <;> simp at h
  | none =>
    have hdec2 : unmarshal d2.Body ⟨[], []⟩ = ((unmarshal d2.Body ⟨[], []⟩).1, none) := by
      rw [← hu]
    cases e with
    | true =>
      rw [handleDelivery_insert_failed d2 w2 _ hdec2] at h
      rcases pre with _ | ⟨a, _ | ⟨b, _ | ⟨c, pre⟩⟩⟩ <;> simp at h
    | false =>
      rw [handleDelivery_saved d2 w2 _ hdec2] at h ⊢
      refine ⟨(unmarshal d2.Body ⟨[], []⟩).1, ?_, rfl⟩
      rcases pre with _ | ⟨a, _ | ⟨b, _ | ⟨c, pre⟩⟩⟩ <;> simp at h
      · simp [h.1]

theorem insert_success_acks_witness :
    settlements (handleDelivery false
      ⟨lit "application/json", marshal ⟨lit "ALBUM-1", lit "like"⟩⟩ ⟨[], [], []⟩).1
      = [.ack false]
    ∧ (handleDelivery false
      ⟨lit "application/json", marshal ⟨lit "ALBUM-1", lit "like"⟩⟩ ⟨[], [], []⟩).2.reviews
      = [⟨lit "ALBUM-1", lit "like"⟩] :=
  have h := insert_success_acks
    ⟨lit "application/json", marshal ⟨lit "ALBUM-1", lit "like"⟩⟩ ⟨[], [], []⟩
    ⟨lit "ALBUM-1", lit "like"⟩ (by decide)
  ⟨h.2.1, h.2.2.2.1⟩

end Consumer

namespace Producer

theorem publishCalls_handleReview (env : Env) (likeOrNot albumID key : GoString) (w : World)
    (d : Publishing) (h : (key, d) ∈ publishCalls (handleReview env likeOrNot albumID w).1) :
    (likeOrNot = lit "like" ∨ likeOrNot = lit "dislike")
    ∧ d = ⟨lit "application/json", marshal ⟨albumID, likeOrNot⟩⟩ := by
  unfold handleReview at h
  by_cases hv : likeOrNot ≠ lit "like" ∧ likeOrNot ≠ lit "dislike"
  · rw [if_pos hv] at h
    simp [publishCalls] at h
  · rw [if_neg hv] at h
    have hact : likeOrNot = lit "like" ∨ likeOrNot = lit "dislike" := by
      by_cases h1 : likeOrNot = lit "like"
      · exact Or.inl h1
      · by_cases h2 : likeOrNot = lit "dislike"
        · exact Or.inr h2
        · exact absurd ⟨h1, h2⟩ hv
    refine ⟨hact, ?_⟩
    obtain ⟨q, dl, c, p⟩ := env
    cases q <;> cases dl <;> cases c <;> cases p <;> cases hm : w.albumExists albumID <;>
      simp_all [publishCalls]

end Producer

namespace Consumer

theorem settlements_append (xs ys : List Effect) :
    settlements (xs ++ ys) = settlements xs ++ settlements ys := by
  induction xs with
  | nil => rfl
  | cons x xs ih => cases x <;> simp [settlements, ih]

theorem inserts_append (xs ys : List Effect) :
    inserts (xs ++ ys) = inserts xs ++ inserts ys := by
  induction xs with
  | nil => rfl
  | cons x xs ih => cases x <;> simp [inserts, ih]

/-- C9: one well-formed message alone in the queue, with the insert failing during the
first k deliveries and succeeding during the next: the loop, given fuel for k+1
deliveries or more, settles with k requeueing Nacks followed by one Ack, attempts
k+1 inserts, leaves exactly one new record, the decoded review, and an empty queue:
the failed attempts persist nothing and nothing is processed after the Ack. -/
theorem requeue_until_saved (insertErr : Nat → Bool) (k : Nat) (d : Publishing)
    (review : Review) (hdec : unmarshal d.Body ⟨[], []⟩ = (review, none))
    (t : Nat) (w : World) (fuel : Nat) (hq : w.reviewQueue = [d])
    (hfail : ∀ i, i < k → insertErr (t + i) = true) (hok : insertErr (t + k) = false)
    (hfuel : k + 1 ≤ fuel) :
    settlements (main insertErr fuel t w).1
      = List.replicate k (.nack false true) ++ [.ack false]
    ∧ inserts (main insertErr fuel t w).1 = List.replicate (k + 1) review
    ∧ (main insertErr fuel t w).2.reviews = w.reviews ++ [review]
    ∧ (main insertErr fuel t w).2.reviewQueue = []
    ∧ (main insertErr fuel t w).2.albums = w.albums := by
  induction k generalizing t w fuel with
  | zero =>
    obtain ⟨f, rfl⟩ : ∃ f, fuel = f + 1 := ⟨fuel - 1, by omega⟩
    rw [main_cons insertErr f t w d [] hq]
    rw [show insertErr t = false from hok, handleDelivery_saved d _ review hdec]
    rw [main_empty insertErr f (t + 1) _ rfl]
    exact ⟨rfl, rfl, rfl, rfl, rfl⟩
  | succ k ih =>
    obtain ⟨f, rfl⟩ : ∃ f, fuel = f + 1 := ⟨fuel - 1, by omega⟩
    have h0 : insertErr t = true := hfail 0 (by omega)
    rw [main_cons insertErr f t w d [] hq, h0, handleDelivery_insert_failed d _ review hdec]
    have hrec := ih (t + 1) { w with reviewQueue := [d] } f rfl
      (fun i hi => by rw [Nat.add_assoc, Nat.add_comm 1 i]; exact hfail (i + 1) (by omega))
      (by rw [Nat.add_assoc, Nat.add_comm 1 k]; exact hok) (by omega)
    obtain ⟨h1, h2, h3, h4, h5⟩ := hrec
    refine ⟨?_, ?_, h3, h4, h5⟩
    · simp only [settlements_append, h1]
      rfl
    · simp only [inserts_append, h2]
      rfl

theorem requeue_until_saved_witness :
    settlements (main (fun t => decide (t < 2)) 3 0
        ⟨[], [], [⟨lit "application/json", marshal ⟨lit "ALBUM-1", lit "like"⟩⟩]⟩).1
      = [.nack false true, .nack false true, .ack false]
    ∧ (main (fun t => decide (t < 2)) 3 0
        ⟨[], [], [⟨lit "application/json", marshal ⟨lit "ALBUM-1", lit "like"⟩⟩]⟩).2.reviews
      = [⟨lit "ALBUM-1", lit "like"⟩] :=
  have h := requeue_until_saved (fun t => decide (t < 2)) 2
    ⟨lit "application/json", marshal ⟨lit "ALBUM-1", lit "like"⟩⟩ ⟨lit "ALBUM-1", lit "like"⟩
    (by decide) 0 ⟨[], [], [⟨lit "application/json", marshal ⟨lit "ALBUM-1", lit "like"⟩⟩]⟩ 3
    rfl (by decide) (by decide) (by decide)
  ⟨h.1, h.2.2.1⟩

/-- C10, as the claim states it, fails: a payload with action "love" decodes, and with the
insert succeeding a record with action "love" is persisted; a payload without an
action member decodes too and is persisted with the empty action. -/
theorem persists_unchecked_action :
    (handleDelivery false
        ⟨lit "application/json", lit "\x7b\"albumID\":\"A\",\"action\":\"love\"\x7d"⟩
        ⟨[], [], []⟩).2.reviews = [⟨lit "A", lit "love"⟩]
    ∧ lit "love" ≠ lit "like" ∧ lit "love" ≠ lit "dislike"
    ∧ (handleDelivery false ⟨lit "application/json", lit "\x7b\"albumID\":\"A\"\x7d"⟩
        ⟨[], [], []⟩).2.reviews = [⟨lit "A", lit ""⟩]
    ∧ settlements (handleDelivery false
        ⟨lit "application/json", lit "\x7b\"albumID\":\"A\",\"action\":\"love\"\x7d"⟩
        ⟨[], [], []⟩).1 = [.ack false] := by
  decide

/-- C10, amended: for every payload delivered, whatever its origin, the loop body either
leaves the `reviews` table as it was or the payload decoded without error, the
insert succeeded, and the one record added carries the decoded albumID and action
as they are, the action unchecked; for a payload that `handleReview` passed to
`Publish`, every record inserted has action "like" or "dislike". -/
theorem persisted_record_is_decoded (insertErr : Bool) (d : Publishing) (w : World) :
    ((handleDelivery insertErr d w).2.reviews = w.reviews
      ∨ (insertErr = false ∧ (unmarshal d.Body ⟨[], []⟩).2 = none
          ∧ (handleDelivery insertErr d w).2.reviews
            = w.reviews ++ [(unmarshal d.Body ⟨[], []⟩).1]))
    ∧ (∀ (env : Producer.Env) (likeOrNot albumID key : GoString) (pw : World),
        (key, d) ∈ Producer.publishCalls (Producer.handleReview env likeOrNot albumID pw).1 →
        ∀ r ∈ inserts (handleDelivery insertErr d w).1,
          r.Action = lit "like" ∨ r.Action = lit "dislike") := by
  constructor
  · cases hu : (unmarshal d.Body ⟨[], []⟩).2 with
    | some er =>
      rw [handleDelivery_error insertErr d w (by rw [hu]; simp)]
      exact Or.inl rfl
    | none =>
      have hdec : unmarshal d.Body ⟨[], []⟩ = ((unmarshal d.Body ⟨[], []⟩).1, none) := by
        rw [← hu]
      cases insertErr with
      | true =>
        rw [handleDelivery_insert_failed d w _ hdec]
        exact Or.inl rfl
      | false =>
        rw [handleDelivery_saved d w _ hdec]
        exact Or.inr ⟨rfl, rfl, rfl⟩
  · intro env likeOrNot albumID key pw hpub r hr
    obtain ⟨hact, hd⟩ := Producer.publishCalls_handleReview env likeOrNot albumID key pw d hpub
    have hv : toValidUTF8 likeOrNot = likeOrNot := by
      rcases hact with h | h <;> subst h <;> decide
    have hdec : unmarshal d.Body ⟨[], []⟩ = (⟨toValidUTF8 albumID, likeOrNot⟩, none) := by
      rw [hd]
      have := unmarshal_marshal ⟨albumID, likeOrNot⟩ ⟨[], []⟩
      simp only [hv] at this
      exact this
    cases insertErr with
    | true =>
      rw [handleDelivery_insert_failed d w _ hdec] at hr
      simp [inserts] at hr
      subst hr
      exact hact
    | false =>
      rw [handleDelivery_saved d w _ hdec] at hr
      simp [inserts] at hr
      subst hr
      exact hact

theorem persisted_record_is_decoded_witness :
    ∀ r ∈ inserts (handleDelivery false
        ⟨lit "application/json", marshal ⟨lit "ALBUM-1", lit "dislike"⟩⟩ ⟨[], [], []⟩).1,
      r.Action = lit "like" ∨ r.Action = lit "dislike" :=
  (persisted_record_is_decoded false
    ⟨lit "application/json", marshal ⟨lit "ALBUM-1", lit "dislike"⟩⟩ ⟨[], [], []⟩).2
    ⟨false, false, false, false⟩ (lit "dislike") (lit "ALBUM-1") (lit "reviewQueue")
    ⟨[lit "ALBUM-1"], [], []⟩ (by decide)

end Consumer

end AsyncAlbum
